import Mathlib

/-!
Shallow embedding of the LogTape OpenTelemetry sink core (src/mod.ts):
the value stringifier, attribute converter, message body converter,
severity mapper, sink adapter and diagnostic logger adaptor, together
with theorems settling the specification claims about them.

JavaScript runtime values are modelled by the inductive type JSValue.
Numbers are modelled as integers; host builtins that the source uses
but does not define, namely the platform inspector, the ISO date
rendering of Date.prototype.toISOString and the generic string
coercion applied by Array.prototype.join, are collected in a Platform
structure and quantified over.
-/

/-- A JavaScript runtime value, as far as the sink manipulates them:
null, undefined, booleans, numbers, strings, Date objects carrying
their epoch milliseconds, arrays, and functions. -/
inductive JSValue where
  | null : JSValue
  | undefined : JSValue
  | bool : Bool → JSValue
  | num : Int → JSValue
  | str : String → JSValue
  | date : Int → JSValue
  | arr : List JSValue → JSValue
  | func : String → JSValue

/-- The JavaScript typeof operator on the modelled values. -/
def jsTypeof : JSValue → String
  | .null => "object"
  | .undefined => "undefined"
  | .bool _ => "boolean"
  | .num _ => "number"
  | .str _ => "string"
  | .date _ => "object"
  | .arr _ => "object"
  | .func _ => "function"

/-- The loose equality test value == null, true exactly on null and
undefined. -/
def isNullish : JSValue → Bool
  | .null => true
  | .undefined => true
  | _ => false

/-- Host-environment builtins the source calls without defining them:
the platform-native inspector used by the inspect render mode, the ISO
rendering of Date.prototype.toISOString, and the ECMAScript ToString
coercion that Array.prototype.join applies to elements that are not
already strings. -/
structure Platform where
  inspect : JSValue → String
  dateToISO : Int → String
  coerceToString : JSValue → String

/-- JSON string quoting with escaping of quotes and backslashes. -/
def jsonQuote (s : String) : String :=
  "\"" ++ String.join (s.data.map (fun c =>
    if c = '"' then "\\\"" else if c = '\\' then "\\\\"
    else String.singleton c)) ++ "\""

/-- JSON.stringify on the modelled values; none models the undefined
result that JSON.stringify yields for functions and undefined, and
such elements render as null inside arrays. -/
def jsonStringify (p : Platform) : JSValue → Option String
  | .null => some "null"
  | .undefined => none
  | .func _ => none
  | .bool b => some (if b then "true" else "false")
  | .num n => some (toString n)
  | .str s => some (jsonQuote s)
  | .date ms => some (jsonQuote (p.dateToISO ms))
  | .arr l => some ("[" ++ String.intercalate ","
      (l.attach.map (fun x => (jsonStringify p x.1).getD "null")) ++ "]")
decreasing_by
  cases x with
  | mk v hv =>
    have h := List.sizeOf_lt_of_mem hv
    simp only [JSValue.arr.sizeOf_spec]
    omega

/-- The render mode for non-primitive values, ObjectRenderer in the
source. -/
inductive ObjectRenderer where
  | json : ObjectRenderer
  | inspect : ObjectRenderer
deriving DecidableEq, Repr

/-- convertToString from src/mod.ts: null, undefined and strings pass
through unchanged; in inspect mode everything else goes to the
platform inspector; in json mode numbers and booleans use toString, a
Date uses toISOString, and everything else uses JSON.stringify. The
TypeScript codomain string or null or undefined is embedded back into
JSValue via the str, null and undefined constructors. -/
def convertToString (p : Platform) (objectRenderer : ObjectRenderer)
    (value : JSValue) : JSValue :=
  match value with
  | .null => .null
  | .undefined => .undefined
  | .str s => .str s
  | v =>
    if objectRenderer = .inspect then .str (p.inspect v)
    else match v with
      | .num n => .str (toString n)
      | .bool b => .str (if b then "true" else "false")
      | .date ms => .str (p.dateToISO ms)
      | v' =>
        match jsonStringify p v' with
        | some s => .str s
        | none => .undefined

/-- JavaScript property assignment on a record modelled as an ordered
association list: assigning to an existing key overwrites its value in
place, assigning to a fresh key appends it. -/
def recordSet (r : List (String × JSValue)) (k : String) (v : JSValue) :
    List (String × JSValue) :=
  if r.any (fun q => q.1 = k) then
    r.map (fun q => if q.1 = k then (k, v) else q)
  else r ++ [(k, v)]

/-- The for-loop over the array elements inside convertToAttributes in
src/mod.ts: t accumulates the typeof of the last non-nullish element;
on the first type mismatch the stringified array is assigned to key
and the loop breaks; otherwise the attribute record is left untouched.
value is the whole array, rest the elements not yet visited. -/
def arrScan (p : Platform) (r : ObjectRenderer) (key : String)
    (value : List JSValue) (attrs : List (String × JSValue)) :
    Option String → List JSValue → List (String × JSValue)
  | _, [] => attrs
  | t, v :: vs =>
    if isNullish v then arrScan p r key value attrs t vs
    else
      match t with
      | some ty =>
        if jsTypeof v ≠ ty then
          recordSet attrs key (.arr (value.map (convertToString p r)))
        else arrScan p r key value attrs (some (jsTypeof v)) vs
      | none => arrScan p r key value attrs (some (jsTypeof v)) vs

/-- The body of the for-loop of convertToAttributes in src/mod.ts for
one property entry: nullish values are skipped; an array value runs
the homogeneity scan and is then unconditionally assigned raw; any
other value is stringified and assigned unless the result is nullish. -/
def processEntry (p : Platform) (r : ObjectRenderer)
    (attrs : List (String × JSValue)) (name : String) (value : JSValue) :
    List (String × JSValue) :=
  let key := "attributes." ++ name
  if isNullish value then attrs
  else
    match value with
    | .arr elems =>
      recordSet (arrScan p r key elems attrs none elems) key (.arr elems)
    | v =>
      let encoded := convertToString p r v
      if isNullish encoded then attrs else recordSet attrs key encoded

/-- The loop of convertToAttributes over the property entries,
threading the attribute record. -/
def convertEntries (p : Platform) (r : ObjectRenderer) :
    List (String × JSValue) → List (String × JSValue) →
    List (String × JSValue)
  | [], attrs => attrs
  | (name, value) :: rest, attrs =>
    convertEntries p r rest (processEntry p r attrs name value)

/-- convertToAttributes from src/mod.ts: fold the entry loop over the
property bag starting from an empty attribute record. -/
def convertToAttributes (p : Platform) (r : ObjectRenderer)
    (properties : List (String × JSValue)) : List (String × JSValue) :=
  convertEntries p r properties []

/-- convertMessageToBody from src/mod.ts: walk the message two entries
at a time, pushing the literal at the even index and, when an
odd-indexed value exists, its convertToString rendering; an odd-length
message ends on its final literal. -/
def convertMessageToBody (p : Platform) (r : ObjectRenderer) :
    List JSValue → List JSValue
  | [] => []
  | [m] => [m]
  | m :: v :: rest => m :: convertToString p r v :: convertMessageToBody p r rest

/-- The body join performed by the sink when messageType is string:
map undefined to the text undefined and null to the text null, coerce
anything else that is not already a string, and concatenate. -/
def joinBody (p : Platform) (body : List JSValue) : String :=
  String.join (body.map (fun v =>
    match v with
    | .undefined => "undefined"
    | .null => "null"
    | .str s => s
    | v' => p.coerceToString v'))

/-- The UNSPECIFIED member of the SeverityNumber enumeration of the
OpenTelemetry logs API. -/
def SeverityNumber.UNSPECIFIED : Int := 0

/-- The DEBUG member of the SeverityNumber enumeration. -/
def SeverityNumber.DEBUG : Int := 5

/-- The INFO member of the SeverityNumber enumeration. -/
def SeverityNumber.INFO : Int := 9

/-- The WARN member of the SeverityNumber enumeration. -/
def SeverityNumber.WARN : Int := 13

/-- The ERROR member of the SeverityNumber enumeration. -/
def SeverityNumber.ERROR : Int := 17

/-- The FATAL member of the SeverityNumber enumeration. -/
def SeverityNumber.FATAL : Int := 21

/-- mapLevelToSeverityNumber from src/mod.ts: the switch over the
level string, with the default arm returning UNSPECIFIED. -/
def mapLevelToSeverityNumber (level : String) : Int :=
  if level = "debug" then SeverityNumber.DEBUG
  else if level = "info" then SeverityNumber.INFO
  else if level = "warning" then SeverityNumber.WARN
  else if level = "error" then SeverityNumber.ERROR
  else if level = "fatal" then SeverityNumber.FATAL
  else SeverityNumber.UNSPECIFIED

/-- The messageType option of the sink: string or array. -/
inductive MessageType where
  | string : MessageType
  | array : MessageType
deriving DecidableEq, Repr

/-- The sink options the per-record behaviour depends on; a missing
field models an absent option. -/
structure SinkOptions where
  messageType : Option MessageType
  objectRenderer : Option ObjectRenderer

/-- An application log record as delivered by the logging facility:
category path, level, templated message, epoch-millisecond timestamp
and property bag. -/
structure AppLogRecord where
  category : List String
  level : String
  message : List JSValue
  timestamp : Int
  properties : List (String × JSValue)

/-- The body of a normalized telemetry record: either the joined
string or the raw fragment sequence. -/
inductive BodyVal where
  | str : String → BodyVal
  | arr : List JSValue → BodyVal

/-- The normalized telemetry record handed to logger.emit; the
timestamp field models the Date constructed from the epoch
milliseconds by carrying those milliseconds. -/
structure EmittedRecord where
  severityNumber : Int
  severityText : String
  body : BodyVal
  attributes : List (String × JSValue)
  timestampMs : Int

/-- The per-record sink closure built by getOpenTelemetrySink in
src/mod.ts: drop the record when the first three category segments are
logtape, meta, otel; otherwise map the severity, convert the
properties, inject the category attribute, convert the message body,
join it unless messageType is array, and emit exactly one normalized
record. none models the suppressed case with no emission. -/
def sinkHandle (p : Platform) (options : SinkOptions)
    (record : AppLogRecord) : Option EmittedRecord :=
  let objectRenderer := options.objectRenderer.getD .inspect
  if record.category.get? 0 = some "logtape" ∧
      record.category.get? 1 = some "meta" ∧
      record.category.get? 2 = some "otel" then
    none
  else
    let severityNumber := mapLevelToSeverityNumber record.level
    let attributes := recordSet
      (convertToAttributes p objectRenderer record.properties)
      "category" (.arr (record.category.map .str))
    let body := convertMessageToBody p objectRenderer record.message
    some
      { severityNumber := severityNumber
        severityText := record.level
        body := if options.messageType = some .array then .arr body
          else .str (joinBody p body)
        attributes := attributes
        timestampMs := record.timestamp }

/-- Replacement of every occurrence of the single character c by the
string r, the behaviour of String.prototype.replaceAll with a
one-character pattern. -/
def replaceAllChar (c : Char) (r : String) (s : String) : String :=
  String.mk (s.data.flatMap (fun ch => if ch = c then r.data else [ch]))

/-- The private escape method of DiagLoggerAdaptor in src/mod.ts:
double every opening and closing curly brace of the message so the
logging facility does not read it as a template. -/
def escapeDiagMessage (msg : String) : String :=
  replaceAllChar '\x7d' "\x7d\x7d" (replaceAllChar '\x7b' "\x7b\x7b" msg)

/-- One call into the application logging facility: the category of
the logger it goes through, the level method used, the template text
and the attached property bag. Each DiagLoggerAdaptor method performs
exactly one such call. -/
structure LogCall where
  category : List String
  level : String
  template : String
  properties : List (String × JSValue)

/-- The template every DiagLoggerAdaptor method builds: the escaped
message followed by a trailing templated values slot. -/
def diagTemplate (msg : String) : String :=
  escapeDiagMessage msg ++ ": \x7bvalues\x7d"

/-- The error method of DiagLoggerAdaptor: one logger.error call under
the reserved category with the escaped message and the variadic
values bundled as the single values property. -/
def diagError (msg : String) (values : List JSValue) : LogCall :=
  { category := ["logtape", "meta", "otel"], level := "error"
    template := diagTemplate msg
    properties := [("values", .arr values)] }

/-- The warn method of DiagLoggerAdaptor, one logger.warn call. -/
def diagWarn (msg : String) (values : List JSValue) : LogCall :=
  { category := ["logtape", "meta", "otel"], level := "warning"
    template := diagTemplate msg
    properties := [("values", .arr values)] }

/-- The info method of DiagLoggerAdaptor, one logger.info call. -/
def diagInfo (msg : String) (values : List JSValue) : LogCall :=
  { category := ["logtape", "meta", "otel"], level := "info"
    template := diagTemplate msg
    properties := [("values", .arr values)] }

/-- The debug method of DiagLoggerAdaptor, one logger.debug call. -/
def diagDebug (msg : String) (values : List JSValue) : LogCall :=
  { category := ["logtape", "meta", "otel"], level := "debug"
    template := diagTemplate msg
    properties := [("values", .arr values)] }

/-- The verbose method of DiagLoggerAdaptor, which also performs one
logger.debug call. -/
def diagVerbose (msg : String) (values : List JSValue) : LogCall :=
  { category := ["logtape", "meta", "otel"], level := "debug"
    template := diagTemplate msg
    properties := [("values", .arr values)] }

/-- A concrete platform instance used to evaluate the definitions on
closed inputs. -/
def pfDefault : Platform :=
  { inspect := fun v => "inspected " ++ jsTypeof v
    dateToISO := fun n => "iso " ++ toString n
    coerceToString := fun v => jsTypeof v }

/-- Assigning a fresh key appends the binding at the end. -/
theorem recordSet_fresh (r : List (String × JSValue)) (k : String)
    (v : JSValue) (h : ∀ q ∈ r, q.1 ≠ k) :
    recordSet r k v = r ++ [(k, v)] := by
  unfold recordSet
  rw [if_neg]
  simp only [List.any_eq_true, decide_eq_true_eq, not_exists, not_and]
  exact fun q hq => h q hq

/-- Reassigning the key that was just appended behind otherwise fresh
bindings overwrites that last binding in place. -/
theorem recordSet_overwrite_last (r : List (String × JSValue)) (k : String)
    (w v : JSValue) (h : ∀ q ∈ r, q.1 ≠ k) :
    recordSet (r ++ [(k, w)]) k v = r ++ [(k, v)] := by
  unfold recordSet
  rw [if_pos]
  · rw [List.map_append]
    congr 1
    · refine (List.map_congr_left ?_).trans (List.map_id r)
      intro q hq
      rw [if_neg (h q hq)]
      rfl
    · simp
  · simp

/-- The array homogeneity scan either leaves the attribute record
unchanged or assigns the elementwise stringified array to the key. -/
theorem arrScan_result (p : Platform) (r : ObjectRenderer) (key : String)
    (value : List JSValue) (attrs : List (String × JSValue)) :
    ∀ t rest, arrScan p r key value attrs t rest = attrs ∨
      arrScan p r key value attrs t rest =
        recordSet attrs key (.arr (value.map (convertToString p r))) := by
  intro t rest
  induction rest generalizing t with
  | nil => exact Or.inl rfl
  | cons v vs ih =>
    simp only [arrScan]
    by_cases hn : isNullish v
    · simpa [hn] using ih t
    · simp only [hn, if_false, Bool.false_eq_true]
      match t with
      | some ty =>
        by_cases hm : jsTypeof v ≠ ty
        · simp [hm]
        · simpa [hm] using ih (some (jsTypeof v))
      | none => simpa using ih (some (jsTypeof v))

/-- The net effect of one entry of the convertToAttributes loop on its
value alone: a nullish value or a scalar whose stringification is
nullish contributes nothing, an array is bound raw, any other scalar
is bound to its stringification. -/
def entryValue (p : Platform) (r : ObjectRenderer) (value : JSValue) :
    Option JSValue :=
  if isNullish value then none
  else
    match value with
    | .arr elems => some (.arr elems)
    | v =>
      let encoded := convertToString p r v
      if isNullish encoded then none else some encoded

/-- The net effect of one entry of the convertToAttributes loop: its
entryValue bound under the prefixed key, or nothing. -/
def entryResult (p : Platform) (r : ObjectRenderer)
    (q : String × JSValue) : Option (String × JSValue) :=
  (entryValue p r q.2).map (fun v => ("attributes." ++ q.1, v))

/-- When the prefixed key of the entry is fresh in the attribute
record, processing the entry appends exactly its entryResult. -/
theorem processEntry_fresh (p : Platform) (r : ObjectRenderer)
    (attrs : List (String × JSValue)) (name : String) (value : JSValue)
    (h : ∀ q ∈ attrs, q.1 ≠ "attributes." ++ name) :
    processEntry p r attrs name value =
      attrs ++ (entryResult p r (name, value)).toList := by
  by_cases hn : isNullish value
  · simp [processEntry, entryResult, entryValue, hn]
  · match value with
    | .arr elems =>
      simp only [processEntry, entryResult, entryValue, hn, if_false,
        Bool.false_eq_true, Option.map_some', Option.toList_some]
      rcases arrScan_result p r ("attributes." ++ name) elems attrs none elems
        with hs | hs
      · rw [hs, recordSet_fresh _ _ _ h]
      · rw [hs, recordSet_fresh _ _ _ h, recordSet_overwrite_last _ _ _ _ h]
    | .null => simp [isNullish] at hn
    | .undefined => simp [isNullish] at hn
    | .bool b =>
      by_cases he : isNullish (convertToString p r (.bool b))
      · simp [processEntry, entryResult, entryValue, hn, he]
      · simp [processEntry, entryResult, entryValue, hn, he,
          recordSet_fresh _ _ _ h]
    | .num n =>
      by_cases he : isNullish (convertToString p r (.num n))
      · simp [processEntry, entryResult, entryValue, hn, he]
      · simp [processEntry, entryResult, entryValue, hn, he,
          recordSet_fresh _ _ _ h]
    | .str s =>
      by_cases he : isNullish (convertToString p r (.str s))
      · simp [processEntry, entryResult, entryValue, hn, he]
      · simp [processEntry, entryResult, entryValue, hn, he,
          recordSet_fresh _ _ _ h]
    | .date ms =>
      by_cases he : isNullish (convertToString p r (.date ms))
      · simp [processEntry, entryResult, entryValue, hn, he]
      · simp [processEntry, entryResult, entryValue, hn, he,
          recordSet_fresh _ _ _ h]
    | .func f =>
      by_cases he : isNullish (convertToString p r (.func f))
      · simp [processEntry, entryResult, entryValue, hn, he]
      · simp [processEntry, entryResult, entryValue, hn, he,
          recordSet_fresh _ _ _ h]

/-- The Array.isArray test on the modelled values. -/
def isArray : JSValue → Bool
  | .arr _ => true
  | _ => false

/-- A defined entryResult always carries the prefixed key of its
entry. -/
theorem entryResult_key (p : Platform) (r : ObjectRenderer)
    (q : String × JSValue) (x : String × JSValue)
    (h : entryResult p r q = some x) : x.1 = "attributes." ++ q.1 := by
  unfold entryResult at h
  rcases Option.map_eq_some'.mp h with ⟨v, _, hx⟩
  rw [← hx]

/-- With pairwise distinct prefixed keys that are all fresh in the
starting attribute record, the entry loop appends exactly the defined
entry results, in order. -/
theorem convertEntries_characterize (p : Platform) (r : ObjectRenderer) :
    ∀ (props attrs : List (String × JSValue)),
    (props.map (fun q => "attributes." ++ q.1)).Nodup →
    (∀ q ∈ props, ∀ a ∈ attrs, a.1 ≠ "attributes." ++ q.1) →
    convertEntries p r props attrs =
      attrs ++ props.filterMap (entryResult p r)
  | [], attrs, _, _ => by simp [convertEntries]
  | (name, value) :: rest, attrs, hnodup, hfresh => by
    rw [List.map_cons] at hnodup
    have hnd := List.nodup_cons.mp hnodup
    rw [convertEntries, processEntry_fresh p r attrs name value
      (fun q hq => hfresh (name, value) (List.mem_cons_self _ _) q hq)]
    rw [convertEntries_characterize p r rest
      (attrs ++ (entryResult p r (name, value)).toList) hnd.2 ?fresh]
    case fresh =>
      intro q hq a ha
      rcases List.mem_append.mp ha with ha | ha
      · exact hfresh q (List.mem_cons_of_mem _ hq) a ha
      · rcases he : entryResult p r (name, value) with _ | x
        · rw [he] at ha; simp at ha
        · rw [he] at ha
          simp only [Option.toList_some, List.mem_singleton] at ha
          rw [ha]
          have hkey := entryResult_key p r (name, value) x he
          rw [hkey]
          intro hcontra
          refine hnd.1 ?_
          have hm : (fun q => "attributes." ++ q.1) q ∈
              List.map (fun q => "attributes." ++ q.1) rest :=
            List.mem_map_of_mem _ hq
          simpa [← hcontra] using hm
    rw [List.filterMap_cons, List.append_assoc]
    rcases he : entryResult p r (name, value) with _ | x <;> simp [he]

/-- An entry whose net effect is empty leaves the attribute record
unchanged, whatever its current contents. -/
theorem processEntry_none (p : Platform) (r : ObjectRenderer)
    (name : String) (value : JSValue)
    (h : entryResult p r (name, value) = none) :
    ∀ attrs, processEntry p r attrs name value = attrs := by
  intro attrs
  simp only [entryResult, entryValue, Option.map_eq_none'] at h
  by_cases hn : isNullish value
  · simp [processEntry, hn]
  · match value with
    | .arr elems => simp [hn] at h
    | .null => simp [isNullish] at hn
    | .undefined => simp [isNullish] at hn
    | .bool b =>
      by_cases he : isNullish (convertToString p r (.bool b))
      · simp [processEntry, hn, he]
      · simp [hn, he] at h
    | .num n =>
      by_cases he : isNullish (convertToString p r (.num n))
      · simp [processEntry, hn, he]
      · simp [hn, he] at h
    | .str s =>
      by_cases he : isNullish (convertToString p r (.str s))
      · simp [processEntry, hn, he]
      · simp [hn, he] at h
    | .date ms =>
      by_cases he : isNullish (convertToString p r (.date ms))
      · simp [processEntry, hn, he]
      · simp [hn, he] at h
    | .func f =>
      by_cases he : isNullish (convertToString p r (.func f))
      · simp [processEntry, hn, he]
      · simp [hn, he] at h

/-- Splicing out an entry with empty net effect does not change the
entry loop result. -/
theorem convertEntries_drop (p : Platform) (r : ObjectRenderer)
    (name : String) (value : JSValue)
    (h : entryResult p r (name, value) = none) :
    ∀ (pre post attrs : List (String × JSValue)),
    convertEntries p r (pre ++ (name, value) :: post) attrs =
      convertEntries p r (pre ++ post) attrs
  | [], post, attrs => by
    rw [List.nil_append, List.nil_append, convertEntries,
      processEntry_none p r name value h]
  | q :: pre, post, attrs => by
    rw [List.cons_append, List.cons_append]
    rcases q with ⟨n, v⟩
    rw [convertEntries, convertEntries]
    exact convertEntries_drop p r name value h pre post _

/-- The body has exactly as many fragments as the message has
entries. -/
theorem convertMessageToBody_length (p : Platform) (r : ObjectRenderer) :
    ∀ message : List JSValue,
    (convertMessageToBody p r message).length = message.length
  | [] => rfl
  | [_] => rfl
  | _ :: _ :: rest => by
    simp [convertMessageToBody, convertMessageToBody_length p r rest]

/-- At every even index the body carries the message entry verbatim. -/
theorem convertMessageToBody_get_even (p : Platform) (r : ObjectRenderer) :
    ∀ (message : List JSValue) (i : Nat), i % 2 = 0 →
    (convertMessageToBody p r message).get? i = message.get? i
  | [], _, _ => rfl
  | [_], _, _ => rfl
  | _ :: _ :: _, 0, _ => rfl
  | _ :: _ :: _, 1, h => by simp at h
  | _ :: _ :: rest, i + 2, h => by
    simpa [convertMessageToBody] using
      convertMessageToBody_get_even p r rest i (by omega)

/-- At every odd index the body carries the convertToString rendering
of the message entry at that index. -/
theorem convertMessageToBody_get_odd (p : Platform) (r : ObjectRenderer) :
    ∀ (message : List JSValue) (i : Nat), i % 2 = 1 →
    (convertMessageToBody p r message).get? i =
      (message.get? i).map (convertToString p r)
  | [], _, _ => rfl
  | [_], 0, h => by simp at h
  | [_], _ + 1, _ => rfl
  | _ :: _ :: _, 0, h => by simp at h
  | _ :: _ :: _, 1, _ => rfl
  | _ :: _ :: rest, i + 2, h => by
    simpa [convertMessageToBody] using
      convertMessageToBody_get_odd p r rest i (by omega)

/-- Occurrence count of a character in a character list. -/
def countChar (c : Char) : List Char → Nat
  | [] => 0
  | ch :: t => (if ch = c then 1 else 0) + countChar c t

/-- countChar distributes over list append. -/
theorem countChar_append (c : Char) :
    ∀ a b : List Char, countChar c (a ++ b) = countChar c a + countChar c b
  | [], _ => by simp [countChar]
  | ch :: t, b => by
    simp [countChar, countChar_append c t b]
    omega

/-- Counting occurrences after replacing every occurrence of the
character c by the character list r: each c contributes the
occurrences of d inside r, and when d differs from c every other
character keeps its own occurrence. -/
theorem count_flatMap_replace (c : Char) (r : List Char) (d : Char) :
    ∀ l : List Char,
    countChar d (l.flatMap (fun ch => if ch = c then r else [ch])) =
      countChar c l * countChar d r + (if d = c then 0 else countChar d l)
  | [] => by simp [countChar]
  | ch :: t => by
    have hstep : ((ch :: t).flatMap (fun ch => if ch = c then r else [ch])) =
        (if ch = c then r else [ch]) ++
          (t.flatMap (fun ch => if ch = c then r else [ch])) := rfl
    rw [hstep, countChar_append, count_flatMap_replace c r d t]
    by_cases h : ch = c
    · by_cases hd : d = c
      · simp [countChar, h, hd, Nat.add_mul]
      · simp [countChar, h, hd, Ne.symm hd, Nat.add_mul]
        ring
    · by_cases hd : d = c
      · simp [countChar, h, hd]
      · simp [countChar, h, hd]
        ring

/-- The escape pass of the diagnostic adaptor doubles the number of
opening braces: the first replacement doubles them and the closing
brace pass does not create or remove any. -/
theorem escapeDiagMessage_count_open (s : String) :
    countChar '\x7b' (escapeDiagMessage s).data =
      2 * countChar '\x7b' s.data := by
  have h1 := count_flatMap_replace '\x7b' ("\x7b\x7b".data) '\x7b' s.data
  have h2 := count_flatMap_replace '\x7d' ("\x7d\x7d".data) '\x7b'
    (s.data.flatMap (fun ch => if ch = '\x7b' then "\x7b\x7b".data else [ch]))
  have e2 : countChar '\x7b' ("\x7b\x7b".data) = 2 := rfl
  have e0 : countChar '\x7b' ("\x7d\x7d".data) = 0 := rfl
  change countChar '\x7b'
      ((s.data.flatMap (fun ch => if ch = '\x7b' then "\x7b\x7b".data
        else [ch])).flatMap (fun ch => if ch = '\x7d' then "\x7d\x7d".data
        else [ch])) = 2 * countChar '\x7b' s.data
  rw [h2, h1, e2, e0]
  rw [if_neg (by decide)]
  simp [Nat.mul_comm]

/-- The escape pass of the diagnostic adaptor doubles the number of
closing braces: the opening brace pass does not touch them and the
second replacement doubles them. -/
theorem escapeDiagMessage_count_close (s : String) :
    countChar '\x7d' (escapeDiagMessage s).data =
      2 * countChar '\x7d' s.data := by
  have h1 := count_flatMap_replace '\x7b' ("\x7b\x7b".data) '\x7d' s.data
  have h2 := count_flatMap_replace '\x7d' ("\x7d\x7d".data) '\x7d'
    (s.data.flatMap (fun ch => if ch = '\x7b' then "\x7b\x7b".data else [ch]))
  have e2 : countChar '\x7d' ("\x7d\x7d".data) = 2 := rfl
  have e0 : countChar '\x7d' ("\x7b\x7b".data) = 0 := rfl
  change countChar '\x7d'
      ((s.data.flatMap (fun ch => if ch = '\x7b' then "\x7b\x7b".data
        else [ch])).flatMap (fun ch => if ch = '\x7d' then "\x7d\x7d".data
        else [ch])) = 2 * countChar '\x7d' s.data
  rw [h2, h1, e2, e0]
  rw [if_neg (by decide)]
  simp [Nat.mul_comm]

/-- A concrete application record used as a closed evaluation input. -/
def recA : AppLogRecord :=
  { category := ["app"], level := "info", message := [.str "hi"]
    timestamp := 1234, properties := [] }

/-- The normalized record the sink produces for recA with default
options. -/
def emittedA : EmittedRecord :=
  { severityNumber := 9, severityText := "info", body := .str "hi"
    attributes := [("category", .arr [.str "app"])], timestampMs := 1234 }

/-- C1: the claim says a mixed-type array property is emitted with
every element stringified. The code instead emits the raw array: the
unconditional assignment after the homogeneity loop overwrites the
stringified array, so for the mixed array [1, x] the emitted attribute
keeps the raw elements even though their stringified forms differ. -/
theorem c1_mixed_array_emitted_raw :
    convertToAttributes pfDefault ObjectRenderer.json
        [("k", JSValue.arr [JSValue.num 1, JSValue.str "x"])] =
      [("attributes.k", JSValue.arr [JSValue.num 1, JSValue.str "x"])] ∧
    List.map (convertToString pfDefault ObjectRenderer.json)
        [JSValue.num 1, JSValue.str "x"] =
      [JSValue.str "1", JSValue.str "x"] ∧
    JSValue.num 1 ≠ JSValue.str "1" :=
  ⟨rfl, rfl, fun h => JSValue.noConfusion h⟩

/-- C2: the sink emits a normalized record exactly when the first
three category segments are not logtape, meta, otel; matching records
are silently dropped whatever their level, message, timestamp or
properties, and at most one record is ever produced per call. -/
theorem c2_category_suppression (p : Platform) (opts : SinkOptions)
    (record : AppLogRecord) :
    (sinkHandle p opts record).isSome = true ↔
      ¬(record.category.get? 0 = some "logtape" ∧
        record.category.get? 1 = some "meta" ∧
        record.category.get? 2 = some "otel") := by
  by_cases h : record.category.get? 0 = some "logtape" ∧
      record.category.get? 1 = some "meta" ∧
      record.category.get? 2 = some "otel"
  · simp [sinkHandle, h]
  · simp [sinkHandle, h]

/-- C3: the severity mapper sends the five recognized levels to the
five documented pairwise distinct constants and every other string to
the UNSPECIFIED sentinel. -/
theorem c3_severity_total_mapping :
    mapLevelToSeverityNumber "debug" = SeverityNumber.DEBUG ∧
    mapLevelToSeverityNumber "info" = SeverityNumber.INFO ∧
    mapLevelToSeverityNumber "warning" = SeverityNumber.WARN ∧
    mapLevelToSeverityNumber "error" = SeverityNumber.ERROR ∧
    mapLevelToSeverityNumber "fatal" = SeverityNumber.FATAL ∧
    List.Nodup [SeverityNumber.DEBUG, SeverityNumber.INFO,
      SeverityNumber.WARN, SeverityNumber.ERROR, SeverityNumber.FATAL,
      SeverityNumber.UNSPECIFIED] ∧
    ∀ s : String, s ∉ ["debug", "info", "warning", "error", "fatal"] →
      mapLevelToSeverityNumber s = SeverityNumber.UNSPECIFIED := by
  refine ⟨rfl, rfl, rfl, rfl, rfl, by decide, ?_⟩
  intro s hs
  simp only [List.mem_cons, List.not_mem_nil, or_false, not_or] at hs
  obtain ⟨h1, h2, h3, h4, h5⟩ := hs
  simp [mapLevelToSeverityNumber, h1, h2, h3, h4, h5]

/-- Witness for C3 at the unrecognized level trace. -/
theorem c3_severity_total_mapping_witness :
    mapLevelToSeverityNumber "trace" = SeverityNumber.UNSPECIFIED :=
  c3_severity_total_mapping.2.2.2.2.2.2 "trace" (by decide)

/-- C9: every emitted record carries the epoch milliseconds of its
source record unchanged, so converting the date back to milliseconds
is the identity round trip. -/
theorem c9_timestamp_roundtrip (p : Platform) (opts : SinkOptions)
    (record : AppLogRecord) (e : EmittedRecord)
    (h : sinkHandle p opts record = some e) :
    e.timestampMs = record.timestamp := by
  simp only [sinkHandle] at h
  split at h
  · simp at h
  · cases h
    rfl

/-- Witness for C9 on the concrete record recA. -/
theorem c9_timestamp_roundtrip_witness : emittedA.timestampMs = 1234 :=
  c9_timestamp_roundtrip pfDefault ⟨none, none⟩ recA emittedA rfl

/-- C10: an array-valued property always contributes its prefixed key
to the attribute output with the array elements verbatim, nullish
elements included, even for an empty array; a standalone null or
undefined property is, in contrast, dropped. -/
theorem c10_array_property_kept_raw (p : Platform) (r : ObjectRenderer)
    (props : List (String × JSValue)) (name : String)
    (elems : List JSValue)
    (hnodup : (props.map (fun q => "attributes." ++ q.1)).Nodup)
    (hmem : (name, JSValue.arr elems) ∈ props) :
    ("attributes." ++ name, JSValue.arr elems) ∈
      convertToAttributes p r props ∧
    convertToAttributes p r [(name, JSValue.null)] = [] ∧
    convertToAttributes p r [(name, JSValue.undefined)] = [] := by
  refine ⟨?_, rfl, rfl⟩
  rw [convertToAttributes, convertEntries_characterize p r props [] hnodup
    (by simp)]
  simp only [List.nil_append]
  exact List.mem_filterMap.mpr ⟨(name, .arr elems), hmem,
    by simp [entryResult, entryValue, isNullish]⟩

/-- Witness for C10 on an array holding only nullish elements. -/
theorem c10_array_property_kept_raw_witness :
    ("attributes." ++ "k", JSValue.arr [JSValue.null, JSValue.undefined]) ∈
      convertToAttributes pfDefault ObjectRenderer.json
        [("k", JSValue.arr [JSValue.null, JSValue.undefined])] ∧
    convertToAttributes pfDefault ObjectRenderer.json
      [("k", JSValue.null)] = [] ∧
    convertToAttributes pfDefault ObjectRenderer.json
      [("k", JSValue.undefined)] = [] :=
  c10_array_property_kept_raw pfDefault ObjectRenderer.json
    [("k", JSValue.arr [JSValue.null, JSValue.undefined])] "k"
    [JSValue.null, JSValue.undefined] (by simp)
    (List.mem_singleton.mpr rfl)

/-- C4: the body converter walks the message two entries at a time:
even indices pass through verbatim, odd indices are stringified, an
odd-length message ends on its final literal, the interleaving order
is preserved and the output is never longer than the input; the two
documented json-mode examples evaluate as stated. -/
theorem c4_message_body_walk (p : Platform) (r : ObjectRenderer)
    (message : List JSValue) :
    ((convertMessageToBody p r message).length = message.length ∨
      (convertMessageToBody p r message).length + 1 = message.length) ∧
    (∀ i : Nat, i % 2 = 0 →
      (convertMessageToBody p r message).get? i = message.get? i) ∧
    (∀ i : Nat, i % 2 = 1 →
      (convertMessageToBody p r message).get? i =
        (message.get? i).map (convertToString p r)) ∧
    convertMessageToBody p ObjectRenderer.json
        [JSValue.str "a", JSValue.num 1, JSValue.str "b"] =
      [JSValue.str "a", JSValue.str "1", JSValue.str "b"] ∧
    convertMessageToBody p ObjectRenderer.json [JSValue.str "only"] =
      [JSValue.str "only"] :=
  ⟨Or.inl (convertMessageToBody_length p r message),
    fun i h => convertMessageToBody_get_even p r message i h,
    fun i h => convertMessageToBody_get_odd p r message i h,
    rfl, rfl⟩

/-- Witness for C4 at the odd index of the first documented example. -/
theorem c4_message_body_walk_witness :
    (convertMessageToBody pfDefault ObjectRenderer.json
      [JSValue.str "a", JSValue.num 1, JSValue.str "b"]).get? 1 =
      some (JSValue.str "1") :=
  ((c4_message_body_walk pfDefault ObjectRenderer.json
    [JSValue.str "a", JSValue.num 1, JSValue.str "b"]).2.2.1 1 rfl).trans rfl

/-- C5: with any messageType other than array, in particular the
default, the emitted body is the single string obtained by joining the
body fragments with null rendered as the text null and undefined as
the text undefined; the documented fragment example joins as stated. -/
theorem c5_string_message_join (p : Platform) (opts : SinkOptions)
    (record : AppLogRecord) (e : EmittedRecord)
    (hmt : opts.messageType ≠ some MessageType.array)
    (h : sinkHandle p opts record = some e) :
    e.body = BodyVal.str (joinBody p (convertMessageToBody p
      (opts.objectRenderer.getD ObjectRenderer.inspect)
      record.message)) ∧
    joinBody p [JSValue.str "x=", JSValue.null, JSValue.str ",y=",
      JSValue.undefined] = "x=null,y=undefined" := by
  constructor
  · simp only [sinkHandle] at h
    split at h
    · simp at h
    · cases h
      simp [hmt]
  · rfl

/-- Witness for C5 on the concrete record recA with default options. -/
theorem c5_string_message_join_witness :
    emittedA.body = BodyVal.str (joinBody pfDefault (convertMessageToBody
      pfDefault ObjectRenderer.inspect recA.message)) ∧
    joinBody pfDefault [JSValue.str "x=", JSValue.null, JSValue.str ",y=",
      JSValue.undefined] = "x=null,y=undefined" :=
  c5_string_message_join pfDefault ⟨none, none⟩ recA emittedA
    (fun h => Option.noConfusion h) rfl

/-- C6: a property with a nullish value, or a non-array property whose
stringification is nullish, contributes nothing at all: splicing the
entry out of the property bag leaves the attribute output unchanged. -/
theorem c6_nullish_property_dropped (p : Platform) (r : ObjectRenderer)
    (pre post : List (String × JSValue)) (name : String) (value : JSValue)
    (h : isNullish value = true ∨
      (isArray value = false ∧
        isNullish (convertToString p r value) = true)) :
    convertToAttributes p r (pre ++ (name, value) :: post) =
      convertToAttributes p r (pre ++ post) := by
  refine convertEntries_drop p r name value ?_ pre post []
  rcases h with h | ⟨ha, he⟩
  · simp [entryResult, entryValue, h]
  · by_cases hn : isNullish value = true
    · simp [entryResult, entryValue, hn]
    · rw [Bool.not_eq_true] at hn
      cases value with
      | arr l => simp [isArray] at ha
      | null => simp [isNullish] at hn
      | undefined => simp [isNullish] at hn
      | bool b => simp [entryResult, entryValue, hn, he]
      | num n => simp [entryResult, entryValue, hn, he]
      | str s => simp [entryResult, entryValue, hn, he]
      | date ms => simp [entryResult, entryValue, hn, he]
      | func f => simp [entryResult, entryValue, hn, he]

/-- Witness for C6: a null-valued property vanishes from the output. -/
theorem c6_nullish_property_dropped_witness :
    convertToAttributes pfDefault ObjectRenderer.json
      [("a", JSValue.str "v"), ("b", JSValue.null)] =
    convertToAttributes pfDefault ObjectRenderer.json
      [("a", JSValue.str "v")] :=
  c6_nullish_property_dropped pfDefault ObjectRenderer.json
    [("a", JSValue.str "v")] [] "b" JSValue.null (Or.inl rfl)

/-- The keys of the collected entry results, when every entry is a
defined scalar binding, are exactly the prefixed property names in
order. -/
theorem filterMap_entryResult_keys (p : Platform) (r : ObjectRenderer) :
    ∀ props : List (String × JSValue),
    (∀ q ∈ props, isNullish q.2 = false ∧ isArray q.2 = false ∧
      isNullish (convertToString p r q.2) = false) →
    (props.filterMap (entryResult p r)).map Prod.fst =
      props.map (fun q => "attributes." ++ q.1)
  | [], _ => rfl
  | q :: rest, hvals => by
    obtain ⟨h1, h2, h3⟩ := hvals q (List.mem_cons_self q rest)
    have hres : entryResult p r q =
        some ("attributes." ++ q.1, convertToString p r q.2) := by
      rcases q with ⟨n, v⟩
      simp only at h1 h2 h3
      cases v with
      | arr l => simp [isArray] at h2
      | null => simp [isNullish] at h1
      | undefined => simp [isNullish] at h1
      | bool b => simp [entryResult, entryValue, h1, h3]
      | num m => simp [entryResult, entryValue, h1, h3]
      | str s => simp [entryResult, entryValue, h1, h3]
      | date ms => simp [entryResult, entryValue, h1, h3]
      | func f => simp [entryResult, entryValue, h1, h3]
    rw [List.filterMap_cons, hres]
    simp only [List.map_cons]
    rw [filterMap_entryResult_keys p r rest
      (fun q2 hq2 => hvals q2 (List.mem_cons_of_mem _ hq2))]

/-- Appending the fixed attribute name space onto property names is
injective. -/
theorem attributesAppend_injective :
    Function.Injective (fun n : String => "attributes." ++ n) := by
  intro a b hab
  have hd := congrArg String.data hab
  rw [String.data_append, String.data_append] at hd
  exact String.ext (List.append_cancel_left hd)

/-- C7 counterexample: a property bag holding one single function
valued property has no null, undefined, or array value, yet under the
json renderer its stringification is undefined, so the output is empty
instead of holding one prefixed key per input key. -/
theorem c7_json_function_counterexample :
    convertToAttributes pfDefault ObjectRenderer.json
      [("f", JSValue.func "g")] = [] ∧
    isNullish (JSValue.func "g") = false ∧
    isArray (JSValue.func "g") = false := by
  refine ⟨?_, rfl, rfl⟩
  simp [convertToAttributes, convertEntries, processEntry, convertToString,
    jsonStringify, isNullish]

/-- C7 as amended: for property bags with pairwise distinct names and
no null, undefined, or array values, whose values moreover stringify
to a defined result, which holds always under the inspect renderer and
fails under json only for values whose JSON serialization is
undefined, the output binds exactly one key per input key, namely the
name prefixed with the attribute name space, in order and with no
other keys. -/
theorem c7_prefixed_keys_amended (p : Platform) (r : ObjectRenderer)
    (props : List (String × JSValue))
    (hnodup : (props.map Prod.fst).Nodup)
    (hvals : ∀ q ∈ props, isNullish q.2 = false ∧ isArray q.2 = false ∧
      isNullish (convertToString p r q.2) = false) :
    (convertToAttributes p r props).map Prod.fst =
      props.map (fun q => "attributes." ++ q.1) := by
  have hpn : (props.map (fun q => "attributes." ++ q.1)).Nodup := by
    have hmm : props.map (fun q => "attributes." ++ q.1) =
        (props.map Prod.fst).map (fun n => "attributes." ++ n) := by
      rw [List.map_map]
      rfl
    rw [hmm]
    exact hnodup.map attributesAppend_injective
  rw [convertToAttributes,
    convertEntries_characterize p r props [] hpn (by simp),
    List.nil_append]
  exact filterMap_entryResult_keys p r props hvals

/-- Witness for the amended C7 on a two-property bag. -/
theorem c7_prefixed_keys_amended_witness :
    (convertToAttributes pfDefault ObjectRenderer.json
      [("a", JSValue.num 1), ("b", JSValue.bool true)]).map Prod.fst =
      ["attributes.a", "attributes.b"] :=
  c7_prefixed_keys_amended pfDefault ObjectRenderer.json
    [("a", JSValue.num 1), ("b", JSValue.bool true)]
    (by decide) (by decide)

/-- C8: each diagnostic adaptor method performs one logging call under
the reserved category at the documented level, verbose sharing the
debug level, with the escaped message followed by the trailing
templated values slot carrying the variadic values as one property,
and the escaping doubles every brace of the message. -/
theorem c8_diag_adaptor_calls (msg : String) (values : List JSValue) :
    (diagError msg values).category = ["logtape", "meta", "otel"] ∧
    (diagWarn msg values).category = ["logtape", "meta", "otel"] ∧
    (diagInfo msg values).category = ["logtape", "meta", "otel"] ∧
    (diagDebug msg values).category = ["logtape", "meta", "otel"] ∧
    (diagVerbose msg values).category = ["logtape", "meta", "otel"] ∧
    (diagError msg values).level = "error" ∧
    (diagWarn msg values).level = "warning" ∧
    (diagInfo msg values).level = "info" ∧
    (diagDebug msg values).level = "debug" ∧
    (diagVerbose msg values).level = "debug" ∧
    (diagError msg values).template =
      escapeDiagMessage msg ++ ": \x7bvalues\x7d" ∧
    (diagWarn msg values).template =
      escapeDiagMessage msg ++ ": \x7bvalues\x7d" ∧
    (diagInfo msg values).template =
      escapeDiagMessage msg ++ ": \x7bvalues\x7d" ∧
    (diagDebug msg values).template =
      escapeDiagMessage msg ++ ": \x7bvalues\x7d" ∧
    (diagVerbose msg values).template =
      escapeDiagMessage msg ++ ": \x7bvalues\x7d" ∧
    (diagError msg values).properties = [("values", JSValue.arr values)] ∧
    (diagWarn msg values).properties = [("values", JSValue.arr values)] ∧
    (diagInfo msg values).properties = [("values", JSValue.arr values)] ∧
    (diagDebug msg values).properties = [("values", JSValue.arr values)] ∧
    (diagVerbose msg values).properties = [("values", JSValue.arr values)] ∧
    countChar '\x7b' (escapeDiagMessage msg).data =
      2 * countChar '\x7b' msg.data ∧
    countChar '\x7d' (escapeDiagMessage msg).data =
      2 * countChar '\x7d' msg.data :=
  ⟨rfl, rfl, rfl, rfl, rfl, rfl, rfl, rfl, rfl, rfl, rfl, rfl, rfl, rfl,
    rfl, rfl, rfl, rfl, rfl, rfl, escapeDiagMessage_count_open msg,
    escapeDiagMessage_count_close msg⟩
